import Mathlib

/-!
# git-lib: the lazy per-key registry (`group/group.go`) and the breaker adapter
(`breaker/breaker.go`)

A shallow embedding of the Go sources.

* Go interface values (`Breaker`, `Cache`) are references; a non-nil one is modelled by the
  identity (a natural number) of the object it points to, a possibly-nil one by `Option`.
* Go `func` values may close over mutable state, so a factory is a state-passing function
  over an environment `σ` that lives next to the `Group`.
* `sync.RWMutex` is modelled by its holders.  Execution is sequential: a goroutine that would
  have to wait for a mutex nobody is going to release is reported as `Outcome.blocked`.
* `go func() { g.sendEvent(..) }()` adds a goroutine to the pool of the `World`; the scheduler
  runs it later as a step of its own (`runGoroutine`).
-/

namespace common

/-! ## `sync.RWMutex` -/

/-- The holders of a `sync.RWMutex`: whether a writer holds it, and how many readers do. -/
structure RWMutex where
  writer : Bool
  readers : Nat
deriving DecidableEq

/-- The zero value of `sync.RWMutex`: an unlocked mutex. -/
def RWMutex.zero : RWMutex := { writer := false, readers := 0 }

/-- `mu.RLock()`: admitted unless a writer holds the mutex (`none`: the caller waits). -/
def RWMutex.RLock (m : RWMutex) : Option RWMutex :=
  if m.writer then none else some { m with readers := m.readers + 1 }

/-- `mu.RUnlock()`: one reader less. -/
def RWMutex.RUnlock (m : RWMutex) : RWMutex :=
  { m with readers := m.readers - 1 }

/-- `mu.Lock()`: admitted when nobody holds the mutex (`none`: the caller waits). -/
def RWMutex.Lock (m : RWMutex) : Option RWMutex :=
  if m.writer = true ∨ m.readers ≠ 0 then none else some { m with writer := true }

/-- `mu.Unlock()`: the writer lets go. -/
def RWMutex.Unlock (m : RWMutex) : RWMutex :=
  { m with writer := false }

/-! ## Values, errors, events -/

/-- A non-nil value of the interface type `Breaker`: the identity of the object behind it. -/
abbrev Breaker := Nat

/-- A non-nil value of the interface type `Cache`: the identity of the object behind it. -/
abbrev Cache := Nat

/-- A Go `error` value made by `errors.New`. -/
structure Error where
  msg : String
deriving DecidableEq

/-- `ErrCreateUnavailable = errors.New("create func return nil")`. -/
def ErrCreateUnavailable : Error := { msg := "create func return nil" }

/-- `type EventType int`. -/
abbrev EventType := Int

/-- `BreakerAdded EventType = iota`, first line of the const block. -/
def BreakerAdded : EventType := 0

/-- `CacheAdded EventType = iota`, second line of the const block. -/
def CacheAdded : EventType := 1

/-- The dynamic value stored in `Member interface{}`. -/
inductive Value where
  | breaker (b : Breaker)
  | cache (c : Cache)
deriving DecidableEq

/-- `GroupEvent struct { Event EventType; Member interface{} }`. -/
structure GroupEvent where
  Event : EventType
  Member : Value
deriving DecidableEq

/-! ## One subscription: `eventReader`, the forwarding goroutine, `output` -/

/-- Capacity of `output := make(chan GroupEvent, 100)`. -/
def outputCap : Nat := 100

/-- One pass of the forwarding loop of `Subscribe` on the buffered contents of `output`
(oldest first): `select { case output <- v: default: <-output; output <- v }`. -/
def forward (output : List GroupEvent) (v : GroupEvent) : List GroupEvent :=
  if output.length < outputCap then output ++ [v]
  else output.tail ++ [v]

/-- The forwarding loop `for v := range eventReader` over the events of `evs`, nothing being
read from `output` meanwhile. -/
def forwardAll (output : List GroupEvent) (evs : List GroupEvent) : List GroupEvent :=
  evs.foldl forward output

/-- The pair of channels made by one `Subscribe()` with the forwarding goroutine between
them.  `eventReader` is unbuffered, so a send on it is taken at once by the forwarder;
`sent` records every event ever sent on it, `output` is what the buffered channel holds. -/
structure Receiver where
  sent : List GroupEvent
  output : List GroupEvent
deriving DecidableEq

/-- A subscription as `Subscribe` creates it: nothing sent, nothing buffered. -/
def Receiver.fresh : Receiver := { sent := [], output := [] }

/-- `receiver <- v` followed by the forwarder's pass for `v`. -/
def Receiver.send (r : Receiver) (v : GroupEvent) : Receiver :=
  { sent := r.sent ++ [v], output := forward r.output v }

/-- A read `<-output` by the subscriber: `none` when nothing is buffered (the read waits). -/
def Receiver.recv (r : Receiver) : Option (GroupEvent × Receiver) :=
  match r.output with
  | [] => none
  | v :: rest => some (v, { r with output := rest })

/-- The subscription after the events of `evs` were sent to it in order, nothing being read
from `output` meanwhile. -/
def Receiver.feed (r : Receiver) (evs : List GroupEvent) : Receiver :=
  evs.foldl Receiver.send r

/-! ## The Group -/

/-- `BreakerFunc func(key string) Breaker` over the environment its closure may touch. -/
abbrev BreakerFunc (σ : Type) := String → σ → Option Breaker × σ

/-- `CacheFunc func(key string) Cache` over the environment its closure may touch. -/
abbrev CacheFunc (σ : Type) := String → σ → Option Cache × σ

/-- The struct `Group`.  A nil `func` field is `none`. -/
structure Group (σ : Type) where
  mu : RWMutex
  breakerMap : String → Option Breaker
  breakerTmpl : Option (BreakerFunc σ)
  cacheMap : String → Option Cache
  cacheTmpl : Option (CacheFunc σ)
  eventReceivers : List Receiver

/-- `m[key] = v` on a Go map. -/
def mapSet {V : Type} (m : String → Option V) (key : String) (v : V) : String → Option V :=
  fun k => if k = key then some v else m k

/-- `NewGroup()`. -/
def NewGroup (σ : Type) : Group σ :=
  { mu := RWMutex.zero
    breakerMap := fun _ => none
    breakerTmpl := none
    cacheMap := fun _ => none
    cacheTmpl := none
    eventReceivers := [] }

/-- `g.WithBreaker(breakerFunc)`: the group after the assignment, which is also the group the
returned pointer designates. -/
def WithBreaker {σ : Type} (g : Group σ) (breakerFunc : Option (BreakerFunc σ)) : Group σ :=
  { g with breakerTmpl := breakerFunc }

/-- `g.WithCache(cacheFunc)`. -/
def WithCache {σ : Type} (g : Group σ) (cacheFunc : Option (CacheFunc σ)) : Group σ :=
  { g with cacheTmpl := cacheFunc }

/-- `g.sendEvent(event, member)`: one send to every receiver of the list as it is when the
loop starts. -/
def sendEvent {σ : Type} (g : Group σ) (event : EventType) (member : Value) : Group σ :=
  { g with eventReceivers :=
      g.eventReceivers.map (fun receiver => receiver.send { Event := event, Member := member }) }

/-- `g.Subscribe()`: the position of the new subscription in `eventReceivers` stands for the
returned `output` channel. -/
def Subscribe {σ : Type} (g : Group σ) : Nat × Group σ :=
  (g.eventReceivers.length, { g with eventReceivers := g.eventReceivers ++ [Receiver.fresh] })

/-! ## The world around a Group -/

/-- A goroutine started by `go func() { g.sendEvent(event, member) }()`.  `key` is a ghost
field: the argument of the call that started it.  `done` is set once it has run. -/
structure Goroutine where
  key : String
  event : GroupEvent
  done : Bool
deriving DecidableEq

/-- A Group together with what surrounds it: the environment of the factory closures, the
goroutines started so far, and (ghost) the keys each factory was invoked with, oldest
first. -/
structure World (σ : Type) where
  g : Group σ
  env : σ
  goroutines : List Goroutine
  breakerCalls : List String
  cacheCalls : List String

/-- How a call ends. -/
inductive Outcome (α σ : Type) where
  /-- The call returned `val`. -/
  | ret (val : α) (w : World σ)
  /-- The call waits for `g.mu`, which nobody is going to release. -/
  | blocked
  /-- The call panicked (call of a nil `func`), leaving the world `w`. -/
  | panicked (w : World σ)

/-- The world a finished call leaves behind. -/
def Outcome.world {α σ : Type} : Outcome α σ → Option (World σ)
  | .ret _ w => some w
  | .blocked => none
  | .panicked w => some w

/-- The value a call returned, if it returned. -/
def Outcome.val {α σ : Type} : Outcome α σ → Option α
  | .ret v _ => some v
  | .blocked => none
  | .panicked _ => none

/-- Lines 75-77 of `GetOrNewBreaker`: `RLock; lookup; RUnlock`. -/
def lookupBreaker {σ : Type} (w : World σ) (key : String) : Outcome (Option Breaker) σ :=
  match w.g.mu.RLock with
  | none => .blocked
  | some mu => .ret (w.g.breakerMap key) { w with g := { w.g with mu := mu.RUnlock } }

/-- Lines 81-93 of `GetOrNewBreaker`: everything from `g.mu.Lock()` on. -/
def createBreaker {σ : Type} (w : World σ) (key : String) :
    Outcome (Option Breaker × Option Error) σ :=
  match w.g.mu.Lock with
  | none => .blocked
  | some mu =>
    match w.g.breakerTmpl with
    | none => .panicked { w with g := { w.g with mu := mu } }
    | some tmpl =>
      match tmpl key w.env with
      | (none, env) =>
        .ret (none, some ErrCreateUnavailable)
          { w with g := { w.g with mu := mu }, env := env,
                   breakerCalls := w.breakerCalls ++ [key] }
      | (some breaker, env) =>
        match w.g.breakerMap key with
        | none =>
          .ret (some breaker, none)
            { w with g := { w.g with mu := mu.Unlock,
                                     breakerMap := mapSet w.g.breakerMap key breaker },
                     env := env,
                     goroutines := w.goroutines ++
                       [{ key := key,
                          event := { Event := BreakerAdded, Member := Value.breaker breaker },
                          done := false }],
                     breakerCalls := w.breakerCalls ++ [key] }
        | some _ =>
          .ret (some breaker, none)
            { w with g := { w.g with mu := mu.Unlock }, env := env,
                     breakerCalls := w.breakerCalls ++ [key] }

/-- `g.GetOrNewBreaker(key)`. -/
def GetOrNewBreaker {σ : Type} (w : World σ) (key : String) :
    Outcome (Option Breaker × Option Error) σ :=
  match lookupBreaker w key with
  | .blocked => .blocked
  | .panicked w1 => .panicked w1
  | .ret (some breaker) w1 => .ret (some breaker, none) w1
  | .ret none w1 => createBreaker w1 key

/-- Lines 97-99 of `GetOrNewCache`: `RLock; lookup; RUnlock`. -/
def lookupCache {σ : Type} (w : World σ) (key : String) : Outcome (Option Cache) σ :=
  match w.g.mu.RLock with
  | none => .blocked
  | some mu => .ret (w.g.cacheMap key) { w with g := { w.g with mu := mu.RUnlock } }

/-- Lines 103-115 of `GetOrNewCache`: everything from `g.mu.Lock()` on. -/
def createCache {σ : Type} (w : World σ) (key : String) :
    Outcome (Option Cache × Option Error) σ :=
  match w.g.mu.Lock with
  | none => .blocked
  | some mu =>
    match w.g.cacheTmpl with
    | none => .panicked { w with g := { w.g with mu := mu } }
    | some tmpl =>
      match tmpl key w.env with
      | (none, env) =>
        .ret (none, some ErrCreateUnavailable)
          { w with g := { w.g with mu := mu }, env := env,
                   cacheCalls := w.cacheCalls ++ [key] }
      | (some cache, env) =>
        match w.g.cacheMap key with
        | none =>
          .ret (some cache, none)
            { w with g := { w.g with mu := mu.Unlock,
                                     cacheMap := mapSet w.g.cacheMap key cache },
                     env := env,
                     goroutines := w.goroutines ++
                       [{ key := key,
                          event := { Event := CacheAdded, Member := Value.cache cache },
                          done := false }],
                     cacheCalls := w.cacheCalls ++ [key] }
        | some _ =>
          .ret (some cache, none)
            { w with g := { w.g with mu := mu.Unlock }, env := env,
                     cacheCalls := w.cacheCalls ++ [key] }

/-- `g.GetOrNewCache(key)`. -/
def GetOrNewCache {σ : Type} (w : World σ) (key : String) :
    Outcome (Option Cache × Option Error) σ :=
  match lookupCache w key with
  | .blocked => .blocked
  | .panicked w1 => .panicked w1
  | .ret (some cache) w1 => .ret (some cache, none) w1
  | .ret none w1 => createCache w1 key

/-- Marks the goroutine at position `i` as having run. -/
def markDone : List Goroutine → Nat → List Goroutine
  | [], _ => []
  | t :: ts, 0 => { t with done := true } :: ts
  | t :: ts, i + 1 => t :: markDone ts i

/-- The scheduler runs the goroutine at position `i` of the pool: its body
`g.sendEvent(event, member)` executes on the Group as it is at that moment.  `none` when
there is no such goroutine or it has already run. -/
def runGoroutine {σ : Type} (w : World σ) (i : Nat) : Option (World σ) :=
  match w.goroutines[i]? with
  | none => none
  | some t =>
    if t.done then none
    else some { w with g := sendEvent w.g t.event.Event t.event.Member,
                       goroutines := markDone w.goroutines i }

/-- Whether the goroutine at position `i` of the pool has run. -/
def hasRun (ts : List Goroutine) (i : Nat) : Bool :=
  match ts[i]? with
  | none => false
  | some t => t.done

/-- The world of a program that has just executed `NewGroup()`. -/
def World.init {σ : Type} (env : σ) : World σ :=
  { g := NewGroup σ, env := env, goroutines := [], breakerCalls := [], cacheCalls := [] }

/-- One thing that can happen to a Group: a call of its API, or the scheduler running a
goroutine of the pool. -/
inductive Call (σ : Type) where
  | withBreaker (f : Option (BreakerFunc σ))
  | withCache (f : Option (CacheFunc σ))
  | getOrNewBreaker (key : String)
  | getOrNewCache (key : String)
  | subscribe
  | schedule (i : Nat)

/-- The world after `c`; `none` when `c` does not finish (it waits for the mutex) or, for
`schedule`, names no runnable goroutine. -/
def step {σ : Type} (w : World σ) : Call σ → Option (World σ)
  | .withBreaker f => some { w with g := WithBreaker w.g f }
  | .withCache f => some { w with g := WithCache w.g f }
  | .getOrNewBreaker key => (GetOrNewBreaker w key).world
  | .getOrNewCache key => (GetOrNewCache w key).world
  | .subscribe => some { w with g := (Subscribe w.g).2 }
  | .schedule i => runGoroutine w i

/-- Runs the calls in order; a call that does not finish ends the run where it stands. -/
def run {σ : Type} (w : World σ) : List (Call σ) → World σ
  | [] => w
  | c :: cs =>
    match step w c with
    | none => w
    | some w1 => run w1 cs

/-- Number of goroutines of the pool started for `key` with an event of kind `kind`. -/
def eventCount (key : String) (kind : EventType) (ts : List Goroutine) : Nat :=
  ts.countP (fun t => decide (t.key = key) && decide (t.event.Event = kind))

/-- Events of kind `BreakerAdded` started for `key` so far, plus one while `key` is still
absent from `breakerMap`: no call ever raises this number. -/
def breakerBudget {σ : Type} (key : String) (w : World σ) : Nat :=
  eventCount key BreakerAdded w.goroutines + (if (w.g.breakerMap key).isSome then 0 else 1)

/-- Events of kind `CacheAdded` started for `key` so far, plus one while `key` is still
absent from `cacheMap`. -/
def cacheBudget {σ : Type} (key : String) (w : World σ) : Nat :=
  eventCount key CacheAdded w.goroutines + (if (w.g.cacheMap key).isSome then 0 else 1)

/-- The world after a `GetOrNewBreaker` that inserted `b` under `k`. -/
def afterBreakerInsert {σ : Type} (w : World σ) (k : String) (b : Breaker) (env : σ) : World σ :=
  { g := { w.g with breakerMap := mapSet w.g.breakerMap k b }
    env := env
    goroutines := w.goroutines ++
      [{ key := k, event := { Event := BreakerAdded, Member := Value.breaker b }, done := false }]
    breakerCalls := w.breakerCalls ++ [k]
    cacheCalls := w.cacheCalls }

/-- The world after a `GetOrNewCache` that inserted `c` under `k`. -/
def afterCacheInsert {σ : Type} (w : World σ) (k : String) (c : Cache) (env : σ) : World σ :=
  { g := { w.g with cacheMap := mapSet w.g.cacheMap k c }
    env := env
    goroutines := w.goroutines ++
      [{ key := k, event := { Event := CacheAdded, Member := Value.cache c }, done := false }]
    breakerCalls := w.breakerCalls
    cacheCalls := w.cacheCalls ++ [k] }

/-- The world after a `GetOrNewBreaker` whose factory returned nil. -/
def afterBreakerFailure {σ : Type} (w : World σ) (k : String) (env : σ) : World σ :=
  { w with g := { w.g with mu := { writer := true, readers := 0 } }
           env := env
           breakerCalls := w.breakerCalls ++ [k] }

/-- The world after a `GetOrNewCache` whose factory returned nil. -/
def afterCacheFailure {σ : Type} (w : World σ) (k : String) (env : σ) : World σ :=
  { w with g := { w.g with mu := { writer := true, readers := 0 } }
           env := env
           cacheCalls := w.cacheCalls ++ [k] }

/-! ## Example factories and worlds -/

/-- A breaker factory that builds a new object at every invocation: the `n`-th invocation
(counted by the environment, from 0) returns the object `n + 1`. -/
def countingBreakers : BreakerFunc Nat := fun _ n => (some (n + 1), n + 1)

/-- A cache factory that builds a new object at every invocation. -/
def countingCaches : CacheFunc Nat := fun _ n => (some (n + 1), n + 1)

/-- A breaker factory that returns nil at its first invocation and a new object afterwards. -/
def flakyBreakers : BreakerFunc Nat := fun _ n => (if n = 0 then none else some n, n + 1)

/-- A cache factory that returns nil at its first invocation and a new object afterwards. -/
def flakyCaches : CacheFunc Nat := fun _ n => (if n = 0 then none else some n, n + 1)

/-- The world after `NewGroup().WithBreaker(countingBreakers).WithCache(countingCaches)`. -/
def countingWorld : World Nat :=
  { World.init 0 with
    g := WithCache (WithBreaker (NewGroup Nat) (some countingBreakers)) (some countingCaches) }

/-- The world after `NewGroup().WithBreaker(flakyBreakers).WithCache(flakyCaches)`. -/
def flakyWorld : World Nat :=
  { World.init 0 with
    g := WithCache (WithBreaker (NewGroup Nat) (some flakyBreakers)) (some flakyCaches) }

/-- The example world at the moment a second caller reaches `g.mu.Lock()` for `"k"`: both
callers missed in the lookup, and the first caller has since built and stored its instance. -/
def racedWorld : World Nat := afterBreakerInsert countingWorld "k" 1 1

/-- The same moment for two callers of `GetOrNewCache("k")`. -/
def racedCacheWorld : World Nat := afterCacheInsert countingWorld "k" 1 1

/-- The `i`-th event of an example run: the creation of the breaker `i`. -/
def breakerEvent (i : Nat) : GroupEvent := { Event := BreakerAdded, Member := Value.breaker i }

/-- The example world after `Subscribe()` and then `GetOrNewBreaker("k")`: one subscription,
one goroutine waiting to be run. -/
def subscribedWorld : World Nat :=
  run countingWorld [Call.subscribe, Call.getOrNewBreaker "k"]

/-- The world `subscribedWorld` once the scheduler has run its goroutine. -/
def deliveredWorld : World Nat :=
  { subscribedWorld with
    g := sendEvent subscribedWorld.g BreakerAdded (Value.breaker 1)
    goroutines := markDone subscribedWorld.goroutines 0 }

end common

namespace circuit

/-- Modelled from the spec: what `Success()` and `Fail()` of the wrapped circuit breaker
record. -/
inductive Mark where
  | success
  | failure
deriving DecidableEq

/-- Modelled from the spec: the type `circuit.Breaker` of the imported package
`github.com/rubyist/circuitbreaker`, which is not part of the sources.  Only what the adapter
touches is kept: the outcomes recorded so far (oldest first) and whether the breaker is
tripped. -/
structure Breaker where
  marks : List Mark
  tripped : Bool
deriving DecidableEq

/-- Modelled from the spec: `(*circuit.Breaker).Success()` of the imported package, which
records a success. -/
def Breaker.Success (b : Breaker) : Breaker := { b with marks := b.marks ++ [Mark.success] }

/-- Modelled from the spec: `(*circuit.Breaker).Fail()` of the imported package, which records
a failure. -/
def Breaker.Fail (b : Breaker) : Breaker := { b with marks := b.marks ++ [Mark.failure] }

/-- Modelled from the spec: `(*circuit.Breaker).Ready()` of the imported package, true while
the breaker admits calls. -/
def Breaker.Ready (b : Breaker) : Bool := !b.tripped

end circuit

namespace breaker

/-- `ErrServiceUnavailable = errors.New("circuit breaker is open")`. -/
def ErrServiceUnavailable : common.Error := { msg := "circuit breaker is open" }

/-- `type CircuitBreaker struct { *circuit.Breaker }`. -/
structure CircuitBreaker where
  Breaker : circuit.Breaker
deriving DecidableEq

/-- `func (c *CircuitBreaker) Allow() error`. -/
def CircuitBreaker.Allow (c : CircuitBreaker) : Option common.Error :=
  if !c.Breaker.Ready then some ErrServiceUnavailable else none

/-- `func (c *CircuitBreaker) MarkSuccess()`, whose body is `c.Fail()`. -/
def CircuitBreaker.MarkSuccess (c : CircuitBreaker) : CircuitBreaker :=
  { c with Breaker := c.Breaker.Fail }

/-- `func (c *CircuitBreaker) MarkFailed()`, whose body is `c.Success()`. -/
def CircuitBreaker.MarkFailed (c : CircuitBreaker) : CircuitBreaker :=
  { c with Breaker := c.Breaker.Success }

end breaker

/-! # Properties -/

namespace common

section computation

variable {σ : Type}

theorem rlock_runlock (m : RWMutex) (h : m.writer = false) :
    m.RLock.map RWMutex.RUnlock = some m := by
  cases m with
  | mk wr rd =>
    simp only at h
    subst h
    simp [RWMutex.RLock, RWMutex.RUnlock]

theorem lookupBreaker_free (w : World σ) (k : String) (h : w.g.mu.writer = false) :
    lookupBreaker w k = .ret (w.g.breakerMap k) w := by
  have h1 := rlock_runlock w.g.mu h
  unfold lookupBreaker
  cases hr : w.g.mu.RLock with
  | none => simp [hr] at h1
  | some m =>
    simp [hr] at h1
    simp [h1]

theorem lookupCache_free (w : World σ) (k : String) (h : w.g.mu.writer = false) :
    lookupCache w k = .ret (w.g.cacheMap k) w := by
  have h1 := rlock_runlock w.g.mu h
  unfold lookupCache
  cases hr : w.g.mu.RLock with
  | none => simp [hr] at h1
  | some m =>
    simp [hr] at h1
    simp [h1]

theorem lookupBreaker_held (w : World σ) (k : String) (h : w.g.mu.writer = true) :
    lookupBreaker w k = .blocked := by
  simp [lookupBreaker, RWMutex.RLock, h]

theorem lookupCache_held (w : World σ) (k : String) (h : w.g.mu.writer = true) :
    lookupCache w k = .blocked := by
  simp [lookupCache, RWMutex.RLock, h]

theorem mu_eq_zero (m : RWMutex) (hw : m.writer = false) (hr : m.readers = 0) :
    m = RWMutex.zero := by
  cases m
  simp_all [RWMutex.zero]

theorem GetOrNewBreaker_hit (w : World σ) (k : String) (b : Breaker)
    (hmu : w.g.mu.writer = false) (hk : w.g.breakerMap k = some b) :
    GetOrNewBreaker w k = .ret (some b, none) w := by
  simp [GetOrNewBreaker, lookupBreaker_free w k hmu, hk]

theorem GetOrNewCache_hit (w : World σ) (k : String) (c : Cache)
    (hmu : w.g.mu.writer = false) (hk : w.g.cacheMap k = some c) :
    GetOrNewCache w k = .ret (some c, none) w := by
  simp [GetOrNewCache, lookupCache_free w k hmu, hk]

theorem GetOrNewBreaker_held (w : World σ) (k : String) (hmu : w.g.mu.writer = true) :
    GetOrNewBreaker w k = .blocked := by
  simp [GetOrNewBreaker, lookupBreaker_held w k hmu]

theorem GetOrNewCache_held (w : World σ) (k : String) (hmu : w.g.mu.writer = true) :
    GetOrNewCache w k = .blocked := by
  simp [GetOrNewCache, lookupCache_held w k hmu]

theorem GetOrNewBreaker_insert (w : World σ) (k : String) (f : BreakerFunc σ) (b : Breaker)
    (env : σ) (hmu : w.g.mu = RWMutex.zero) (hk : w.g.breakerMap k = none)
    (hf : w.g.breakerTmpl = some f) (hb : f k w.env = (some b, env)) :
    GetOrNewBreaker w k = .ret (some b, none) (afterBreakerInsert w k b env) := by
  have hw : w.g.mu.writer = false := by simp [hmu, RWMutex.zero]
  simp [GetOrNewBreaker, lookupBreaker_free w k hw, hk, createBreaker, hf, hb, hmu,
    RWMutex.Lock, RWMutex.Unlock, RWMutex.zero, afterBreakerInsert]

theorem GetOrNewCache_insert (w : World σ) (k : String) (f : CacheFunc σ) (c : Cache)
    (env : σ) (hmu : w.g.mu = RWMutex.zero) (hk : w.g.cacheMap k = none)
    (hf : w.g.cacheTmpl = some f) (hc : f k w.env = (some c, env)) :
    GetOrNewCache w k = .ret (some c, none) (afterCacheInsert w k c env) := by
  have hw : w.g.mu.writer = false := by simp [hmu, RWMutex.zero]
  simp [GetOrNewCache, lookupCache_free w k hw, hk, createCache, hf, hc, hmu,
    RWMutex.Lock, RWMutex.Unlock, RWMutex.zero, afterCacheInsert]

theorem GetOrNewBreaker_nil (w : World σ) (k : String) (f : BreakerFunc σ)
    (env : σ) (hmu : w.g.mu = RWMutex.zero) (hk : w.g.breakerMap k = none)
    (hf : w.g.breakerTmpl = some f) (hb : f k w.env = (none, env)) :
    GetOrNewBreaker w k = .ret (none, some ErrCreateUnavailable) (afterBreakerFailure w k env) := by
  have hw : w.g.mu.writer = false := by simp [hmu, RWMutex.zero]
  simp [GetOrNewBreaker, lookupBreaker_free w k hw, hk, createBreaker, hf, hb, hmu,
    RWMutex.Lock, RWMutex.zero, afterBreakerFailure]

theorem GetOrNewCache_nil (w : World σ) (k : String) (f : CacheFunc σ)
    (env : σ) (hmu : w.g.mu = RWMutex.zero) (hk : w.g.cacheMap k = none)
    (hf : w.g.cacheTmpl = some f) (hc : f k w.env = (none, env)) :
    GetOrNewCache w k = .ret (none, some ErrCreateUnavailable) (afterCacheFailure w k env) := by
  have hw : w.g.mu.writer = false := by simp [hmu, RWMutex.zero]
  simp [GetOrNewCache, lookupCache_free w k hw, hk, createCache, hf, hc, hmu,
    RWMutex.Lock, RWMutex.zero, afterCacheFailure]

theorem GetOrNewBreaker_unset (w : World σ) (k : String)
    (hmu : w.g.mu = RWMutex.zero) (hk : w.g.breakerMap k = none)
    (hf : w.g.breakerTmpl = none) :
    GetOrNewBreaker w k =
      .panicked { w with g := { w.g with mu := { writer := true, readers := 0 } } } := by
  have hw : w.g.mu.writer = false := by simp [hmu, RWMutex.zero]
  simp [GetOrNewBreaker, lookupBreaker_free w k hw, hk, createBreaker, hf, hmu,
    RWMutex.Lock, RWMutex.zero]

theorem GetOrNewCache_unset (w : World σ) (k : String)
    (hmu : w.g.mu = RWMutex.zero) (hk : w.g.cacheMap k = none)
    (hf : w.g.cacheTmpl = none) :
    GetOrNewCache w k =
      .panicked { w with g := { w.g with mu := { writer := true, readers := 0 } } } := by
  have hw : w.g.mu.writer = false := by simp [hmu, RWMutex.zero]
  simp [GetOrNewCache, lookupCache_free w k hw, hk, createCache, hf, hmu,
    RWMutex.Lock, RWMutex.zero]

/-- Every way a `GetOrNewBreaker` can end. -/
theorem GetOrNewBreaker_cases (w : World σ) (k : String) :
    GetOrNewBreaker w k = .blocked ∨
    (∃ b, w.g.breakerMap k = some b ∧ GetOrNewBreaker w k = .ret (some b, none) w) ∨
    (w.g.breakerMap k = none ∧ w.g.mu = RWMutex.zero ∧ w.g.breakerTmpl = none ∧
      GetOrNewBreaker w k =
        .panicked { w with g := { w.g with mu := { writer := true, readers := 0 } } }) ∨
    (∃ f env, w.g.breakerMap k = none ∧ w.g.mu = RWMutex.zero ∧ w.g.breakerTmpl = some f ∧
      f k w.env = (none, env) ∧
      GetOrNewBreaker w k =
        .ret (none, some ErrCreateUnavailable) (afterBreakerFailure w k env)) ∨
    (∃ f b env, w.g.breakerMap k = none ∧ w.g.mu = RWMutex.zero ∧ w.g.breakerTmpl = some f ∧
      f k w.env = (some b, env) ∧
      GetOrNewBreaker w k = .ret (some b, none) (afterBreakerInsert w k b env)) := by
  cases hw : w.g.mu.writer with
  | true => exact Or.inl (GetOrNewBreaker_held w k hw)
  | false =>
    cases hk : w.g.breakerMap k with
    | some b => exact Or.inr (Or.inl ⟨b, rfl, GetOrNewBreaker_hit w k b hw hk⟩)
    | none =>
      by_cases hr : w.g.mu.readers = 0
      · have hmu := mu_eq_zero w.g.mu hw hr
        cases hf : w.g.breakerTmpl with
        | none =>
          exact Or.inr (Or.inr (Or.inl ⟨rfl, hmu, rfl, GetOrNewBreaker_unset w k hmu hk hf⟩))
        | some f =>
          cases hb : f k w.env with
          | mk r env =>
            cases r with
            | none =>
              exact Or.inr (Or.inr (Or.inr (Or.inl
                ⟨f, env, rfl, hmu, rfl, hb, GetOrNewBreaker_nil w k f env hmu hk hf hb⟩)))
            | some b =>
              exact Or.inr (Or.inr (Or.inr (Or.inr
                ⟨f, b, env, rfl, hmu, rfl, hb, GetOrNewBreaker_insert w k f b env hmu hk hf hb⟩)))
      · left
        simp [GetOrNewBreaker, lookupBreaker_free w k hw, hk, createBreaker, RWMutex.Lock, hr]

/-- Every way a `GetOrNewCache` can end. -/
theorem GetOrNewCache_cases (w : World σ) (k : String) :
    GetOrNewCache w k = .blocked ∨
    (∃ c, w.g.cacheMap k = some c ∧ GetOrNewCache w k = .ret (some c, none) w) ∨
    (w.g.cacheMap k = none ∧ w.g.mu = RWMutex.zero ∧ w.g.cacheTmpl = none ∧
      GetOrNewCache w k =
        .panicked { w with g := { w.g with mu := { writer := true, readers := 0 } } }) ∨
    (∃ f env, w.g.cacheMap k = none ∧ w.g.mu = RWMutex.zero ∧ w.g.cacheTmpl = some f ∧
      f k w.env = (none, env) ∧
      GetOrNewCache w k =
        .ret (none, some ErrCreateUnavailable) (afterCacheFailure w k env)) ∨
    (∃ f c env, w.g.cacheMap k = none ∧ w.g.mu = RWMutex.zero ∧ w.g.cacheTmpl = some f ∧
      f k w.env = (some c, env) ∧
      GetOrNewCache w k = .ret (some c, none) (afterCacheInsert w k c env)) := by
  cases hw : w.g.mu.writer with
  | true => exact Or.inl (GetOrNewCache_held w k hw)
  | false =>
    cases hk : w.g.cacheMap k with
    | some c => exact Or.inr (Or.inl ⟨c, rfl, GetOrNewCache_hit w k c hw hk⟩)
    | none =>
      by_cases hr : w.g.mu.readers = 0
      · have hmu := mu_eq_zero w.g.mu hw hr
        cases hf : w.g.cacheTmpl with
        | none =>
          exact Or.inr (Or.inr (Or.inl ⟨rfl, hmu, rfl, GetOrNewCache_unset w k hmu hk hf⟩))
        | some f =>
          cases hb : f k w.env with
          | mk r env =>
            cases r with
            | none =>
              exact Or.inr (Or.inr (Or.inr (Or.inl
                ⟨f, env, rfl, hmu, rfl, hb, GetOrNewCache_nil w k f env hmu hk hf hb⟩)))
            | some c =>
              exact Or.inr (Or.inr (Or.inr (Or.inr
                ⟨f, c, env, rfl, hmu, rfl, hb, GetOrNewCache_insert w k f c env hmu hk hf hb⟩)))
      · left
        simp [GetOrNewCache, lookupCache_free w k hw, hk, createCache, RWMutex.Lock, hr]

theorem breaker_twice (w : World σ) (k : String) (f : BreakerFunc σ) (b : Breaker) (env : σ)
    (hmu : w.g.mu = RWMutex.zero) (hk : w.g.breakerMap k = none)
    (hf : w.g.breakerTmpl = some f) (hb : f k w.env = (some b, env)) :
    ∃ w1 w2, GetOrNewBreaker w k = .ret (some b, none) w1 ∧
      GetOrNewBreaker w1 k = .ret (some b, none) w2 ∧
      w1.breakerCalls = w.breakerCalls ++ [k] ∧ w2.breakerCalls = w.breakerCalls ++ [k] ∧
      w1.env = env ∧ w2.env = env ∧ w2.g.breakerMap k = some b := by
  refine ⟨afterBreakerInsert w k b env, afterBreakerInsert w k b env,
    GetOrNewBreaker_insert w k f b env hmu hk hf hb, ?_, rfl, rfl, rfl, rfl, ?_⟩
  · apply GetOrNewBreaker_hit
    · simp [afterBreakerInsert, hmu, RWMutex.zero]
    · simp [afterBreakerInsert, mapSet]
  · simp [afterBreakerInsert, mapSet]

theorem cache_twice (w : World σ) (k : String) (f : CacheFunc σ) (c : Cache) (env : σ)
    (hmu : w.g.mu = RWMutex.zero) (hk : w.g.cacheMap k = none)
    (hf : w.g.cacheTmpl = some f) (hc : f k w.env = (some c, env)) :
    ∃ w1 w2, GetOrNewCache w k = .ret (some c, none) w1 ∧
      GetOrNewCache w1 k = .ret (some c, none) w2 ∧
      w1.cacheCalls = w.cacheCalls ++ [k] ∧ w2.cacheCalls = w.cacheCalls ++ [k] ∧
      w1.env = env ∧ w2.env = env ∧ w2.g.cacheMap k = some c := by
  refine ⟨afterCacheInsert w k c env, afterCacheInsert w k c env,
    GetOrNewCache_insert w k f c env hmu hk hf hc, ?_, rfl, rfl, rfl, rfl, ?_⟩
  · apply GetOrNewCache_hit
    · simp [afterCacheInsert, hmu, RWMutex.zero]
    · simp [afterCacheInsert, mapSet]
  · simp [afterCacheInsert, mapSet]

end computation

/-- C1. From a Group whose mutex is free, for a key `k` absent from `breakerMap` and a breaker
factory that returns the non-nil instance `b` for `k`: two sequential calls
`GetOrNewBreaker(k)` both return `(b, nil)`, the factory is invoked exactly once across the
two calls (the log of its invocations grows by `k` in the first call and not at all in the
second, and its environment advances once), and afterwards `breakerMap[k]` is `b`.  The same
holds for `GetOrNewCache` with `cacheMap` and the cache factory. -/
theorem getOrNew_twice_same_instance :
    (∀ {σ : Type} (w : World σ) (k : String) (f : BreakerFunc σ) (b : Breaker) (env : σ),
      w.g.mu = RWMutex.zero → w.g.breakerMap k = none → w.g.breakerTmpl = some f →
      f k w.env = (some b, env) →
      ∃ w1 w2, GetOrNewBreaker w k = .ret (some b, none) w1 ∧
        GetOrNewBreaker w1 k = .ret (some b, none) w2 ∧
        w1.breakerCalls = w.breakerCalls ++ [k] ∧ w2.breakerCalls = w.breakerCalls ++ [k] ∧
        w1.env = env ∧ w2.env = env ∧ w2.g.breakerMap k = some b) ∧
    (∀ {σ : Type} (w : World σ) (k : String) (f : CacheFunc σ) (c : Cache) (env : σ),
      w.g.mu = RWMutex.zero → w.g.cacheMap k = none → w.g.cacheTmpl = some f →
      f k w.env = (some c, env) →
      ∃ w1 w2, GetOrNewCache w k = .ret (some c, none) w1 ∧
        GetOrNewCache w1 k = .ret (some c, none) w2 ∧
        w1.cacheCalls = w.cacheCalls ++ [k] ∧ w2.cacheCalls = w.cacheCalls ++ [k] ∧
        w1.env = env ∧ w2.env = env ∧ w2.g.cacheMap k = some c) :=
  ⟨fun w k f b env => breaker_twice w k f b env, fun w k f c env => cache_twice w k f c env⟩

/-- Witness of C1 on `NewGroup().WithBreaker(countingBreakers).WithCache(countingCaches)` and
the key `"x"`. -/
theorem getOrNew_twice_same_instance_witness :
    (countingWorld.g.mu = RWMutex.zero ∧ countingWorld.g.breakerMap "x" = none ∧
      countingWorld.g.breakerTmpl = some countingBreakers ∧
      countingBreakers "x" countingWorld.env = (some 1, 1) ∧
      ∃ w1 w2, GetOrNewBreaker countingWorld "x" = .ret (some 1, none) w1 ∧
        GetOrNewBreaker w1 "x" = .ret (some 1, none) w2 ∧
        w1.breakerCalls = countingWorld.breakerCalls ++ ["x"] ∧
        w2.breakerCalls = countingWorld.breakerCalls ++ ["x"] ∧
        w1.env = 1 ∧ w2.env = 1 ∧ w2.g.breakerMap "x" = some 1) ∧
    (countingWorld.g.mu = RWMutex.zero ∧ countingWorld.g.cacheMap "x" = none ∧
      countingWorld.g.cacheTmpl = some countingCaches ∧
      countingCaches "x" countingWorld.env = (some 1, 1) ∧
      ∃ w1 w2, GetOrNewCache countingWorld "x" = .ret (some 1, none) w1 ∧
        GetOrNewCache w1 "x" = .ret (some 1, none) w2 ∧
        w1.cacheCalls = countingWorld.cacheCalls ++ ["x"] ∧
        w2.cacheCalls = countingWorld.cacheCalls ++ ["x"] ∧
        w1.env = 1 ∧ w2.env = 1 ∧ w2.g.cacheMap "x" = some 1) :=
  ⟨⟨rfl, rfl, rfl, rfl,
      getOrNew_twice_same_instance.1 countingWorld "x" countingBreakers 1 1 rfl rfl rfl rfl⟩,
   ⟨rfl, rfl, rfl, rfl,
      getOrNew_twice_same_instance.2 countingWorld "x" countingCaches 1 1 rfl rfl rfl rfl⟩⟩

section errors

variable {σ : Type}

theorem breaker_error_frame (w : World σ) (k : String)
    (v : Option Breaker × Option Error) (w1 : World σ)
    (h : GetOrNewBreaker w k = .ret v w1) (he : v.2 ≠ none) :
    v = (none, some ErrCreateUnavailable) ∧
    (∃ f, w.g.breakerTmpl = some f ∧ (f k w.env).1 = none) ∧
    w1.g.breakerMap = w.g.breakerMap ∧ w1.g.cacheMap = w.g.cacheMap ∧
    w1.g.eventReceivers = w.g.eventReceivers ∧ w1.goroutines = w.goroutines := by
  rcases GetOrNewBreaker_cases w k with e | ⟨b, _, e⟩ | ⟨_, _, _, e⟩ | ⟨f, env, _, _, hf, hb, e⟩ |
    ⟨f, b, env, _, _, _, _, e⟩
  · rw [e] at h; cases h
  · rw [e] at h; cases h; simp at he
  · rw [e] at h; cases h
  · rw [e] at h; cases h
    exact ⟨rfl, ⟨f, hf, by simp [hb]⟩, rfl, rfl, rfl, rfl⟩
  · rw [e] at h; cases h; simp at he

theorem cache_error_frame (w : World σ) (k : String)
    (v : Option Cache × Option Error) (w1 : World σ)
    (h : GetOrNewCache w k = .ret v w1) (he : v.2 ≠ none) :
    v = (none, some ErrCreateUnavailable) ∧
    (∃ f, w.g.cacheTmpl = some f ∧ (f k w.env).1 = none) ∧
    w1.g.breakerMap = w.g.breakerMap ∧ w1.g.cacheMap = w.g.cacheMap ∧
    w1.g.eventReceivers = w.g.eventReceivers ∧ w1.goroutines = w.goroutines := by
  rcases GetOrNewCache_cases w k with e | ⟨c, _, e⟩ | ⟨_, _, _, e⟩ | ⟨f, env, _, _, hf, hc, e⟩ |
    ⟨f, c, env, _, _, _, _, e⟩
  · rw [e] at h; cases h
  · rw [e] at h; cases h; simp at he
  · rw [e] at h; cases h
  · rw [e] at h; cases h
    exact ⟨rfl, ⟨f, hf, by simp [hc]⟩, rfl, rfl, rfl, rfl⟩
  · rw [e] at h; cases h; simp at he

theorem breaker_error_iff (w : World σ) (k : String)
    (hmu : w.g.mu = RWMutex.zero) (hk : w.g.breakerMap k = none) :
    (∃ w1, GetOrNewBreaker w k = .ret (none, some ErrCreateUnavailable) w1) ↔
      ∃ f, w.g.breakerTmpl = some f ∧ (f k w.env).1 = none := by
  constructor
  · rintro ⟨w1, h⟩
    exact (breaker_error_frame w k _ w1 h (by simp)).2.1
  · rintro ⟨f, hf, hn⟩
    cases hb : f k w.env with
    | mk r env =>
      rw [hb] at hn
      simp only at hn
      subst hn
      exact ⟨_, GetOrNewBreaker_nil w k f env hmu hk hf hb⟩

theorem cache_error_iff (w : World σ) (k : String)
    (hmu : w.g.mu = RWMutex.zero) (hk : w.g.cacheMap k = none) :
    (∃ w1, GetOrNewCache w k = .ret (none, some ErrCreateUnavailable) w1) ↔
      ∃ f, w.g.cacheTmpl = some f ∧ (f k w.env).1 = none := by
  constructor
  · rintro ⟨w1, h⟩
    exact (cache_error_frame w k _ w1 h (by simp)).2.1
  · rintro ⟨f, hf, hn⟩
    cases hc : f k w.env with
    | mk r env =>
      rw [hc] at hn
      simp only at hn
      subst hn
      exact ⟨_, GetOrNewCache_nil w k f env hmu hk hf hc⟩

theorem breaker_present_returns (w : World σ) (k : String) (b : Breaker)
    (hk : w.g.breakerMap k = some b)
    (v : Option Breaker × Option Error) (w1 : World σ)
    (h : GetOrNewBreaker w k = .ret v w1) : v = (some b, none) ∧ w1 = w := by
  rcases GetOrNewBreaker_cases w k with e | ⟨b1, hb1, e⟩ | ⟨h0, _⟩ | ⟨_, _, h0, _⟩ |
    ⟨_, _, _, h0, _⟩
  · rw [e] at h; cases h
  · rw [e] at h; cases h
    rw [hk] at hb1
    cases hb1
    exact ⟨rfl, rfl⟩
  · rw [hk] at h0; cases h0
  · rw [hk] at h0; cases h0
  · rw [hk] at h0; cases h0

theorem cache_present_returns (w : World σ) (k : String) (c : Cache)
    (hk : w.g.cacheMap k = some c)
    (v : Option Cache × Option Error) (w1 : World σ)
    (h : GetOrNewCache w k = .ret v w1) : v = (some c, none) ∧ w1 = w := by
  rcases GetOrNewCache_cases w k with e | ⟨c1, hc1, e⟩ | ⟨h0, _⟩ | ⟨_, _, h0, _⟩ |
    ⟨_, _, _, h0, _⟩
  · rw [e] at h; cases h
  · rw [e] at h; cases h
    rw [hk] at hc1
    cases hc1
    exact ⟨rfl, rfl⟩
  · rw [hk] at h0; cases h0
  · rw [hk] at h0; cases h0
  · rw [hk] at h0; cases h0

end errors

/-- C2. For a Group whose mutex is free and a key `k` absent from `breakerMap`:
`GetOrNewBreaker(k)` returns `(nil, ErrCreateUnavailable)` if and only if the factory returns
nil for `k`; whenever a call returns an error, the error is `ErrCreateUnavailable`, the
Breaker is nil, and `breakerMap`, `cacheMap`, the event receivers and the pool of event
goroutines are unchanged.  For a key already present a call that returns returns that entry
and no error, and it does return when no writer holds the mutex.  The same holds for
`GetOrNewCache`. -/
theorem construction_unavailable_iff_factory_nil :
    (∀ {σ : Type} (w : World σ) (k : String),
      w.g.mu = RWMutex.zero → w.g.breakerMap k = none →
      ((∃ w1, GetOrNewBreaker w k = .ret (none, some ErrCreateUnavailable) w1) ↔
        ∃ f, w.g.breakerTmpl = some f ∧ (f k w.env).1 = none)) ∧
    (∀ {σ : Type} (w : World σ) (k : String) (v : Option Breaker × Option Error)
      (w1 : World σ), GetOrNewBreaker w k = .ret v w1 → v.2 ≠ none →
      v = (none, some ErrCreateUnavailable) ∧
      w1.g.breakerMap = w.g.breakerMap ∧ w1.g.cacheMap = w.g.cacheMap ∧
      w1.g.eventReceivers = w.g.eventReceivers ∧ w1.goroutines = w.goroutines) ∧
    (∀ {σ : Type} (w : World σ) (k : String) (b : Breaker), w.g.breakerMap k = some b →
      (∀ v w1, GetOrNewBreaker w k = .ret v w1 → v = (some b, none)) ∧
      (w.g.mu.writer = false → GetOrNewBreaker w k = .ret (some b, none) w)) ∧
    (∀ {σ : Type} (w : World σ) (k : String),
      w.g.mu = RWMutex.zero → w.g.cacheMap k = none →
      ((∃ w1, GetOrNewCache w k = .ret (none, some ErrCreateUnavailable) w1) ↔
        ∃ f, w.g.cacheTmpl = some f ∧ (f k w.env).1 = none)) ∧
    (∀ {σ : Type} (w : World σ) (k : String) (v : Option Cache × Option Error)
      (w1 : World σ), GetOrNewCache w k = .ret v w1 → v.2 ≠ none →
      v = (none, some ErrCreateUnavailable) ∧
      w1.g.breakerMap = w.g.breakerMap ∧ w1.g.cacheMap = w.g.cacheMap ∧
      w1.g.eventReceivers = w.g.eventReceivers ∧ w1.goroutines = w.goroutines) ∧
    (∀ {σ : Type} (w : World σ) (k : String) (c : Cache), w.g.cacheMap k = some c →
      (∀ v w1, GetOrNewCache w k = .ret v w1 → v = (some c, none)) ∧
      (w.g.mu.writer = false → GetOrNewCache w k = .ret (some c, none) w)) := by
  refine ⟨fun w k hmu hk => breaker_error_iff w k hmu hk, ?_, ?_,
    fun w k hmu hk => cache_error_iff w k hmu hk, ?_, ?_⟩
  · intro σ w k v w1 h he
    obtain ⟨h1, _, h2⟩ := breaker_error_frame w k v w1 h he
    exact ⟨h1, h2⟩
  · intro σ w k b hk
    exact ⟨fun v w1 h => (breaker_present_returns w k b hk v w1 h).1,
      fun hw => GetOrNewBreaker_hit w k b hw hk⟩
  · intro σ w k v w1 h he
    obtain ⟨h1, _, h2⟩ := cache_error_frame w k v w1 h he
    exact ⟨h1, h2⟩
  · intro σ w k c hk
    exact ⟨fun v w1 h => (cache_present_returns w k c hk v w1 h).1,
      fun hw => GetOrNewCache_hit w k c hw hk⟩

/-- Witness of C2 on `NewGroup().WithBreaker(flakyBreakers).WithCache(flakyCaches)`, whose
factories return nil at their first invocation: the call for `"x"` fails. -/
theorem construction_unavailable_iff_factory_nil_witness :
    flakyWorld.g.mu = RWMutex.zero ∧ flakyWorld.g.breakerMap "x" = none ∧
    (∃ f, flakyWorld.g.breakerTmpl = some f ∧ (f "x" flakyWorld.env).1 = none) ∧
    ∃ w1, GetOrNewBreaker flakyWorld "x" = .ret (none, some ErrCreateUnavailable) w1 :=
  ⟨rfl, rfl, ⟨flakyBreakers, rfl, rfl⟩,
    (construction_unavailable_iff_factory_nil.1 flakyWorld "x" rfl rfl).2
      ⟨flakyBreakers, rfl, rfl⟩⟩

section frames

variable {σ : Type}

theorem breaker_call_frame (w : World σ) (k : String) (w1 : World σ)
    (h : (GetOrNewBreaker w k).world = some w1) :
    w1.g.cacheMap = w.g.cacheMap ∧ w1.g.cacheTmpl = w.g.cacheTmpl ∧
    w1.cacheCalls = w.cacheCalls ∧ w1.g.breakerTmpl = w.g.breakerTmpl ∧
    w1.g.eventReceivers = w.g.eventReceivers := by
  rcases GetOrNewBreaker_cases w k with e | ⟨b, _, e⟩ | ⟨_, _, _, e⟩ | ⟨f, env, _, _, _, _, e⟩ |
    ⟨f, b, env, _, _, _, _, e⟩ <;>
  · rw [e] at h
    simp only [Outcome.world, Option.some.injEq] at h
    try subst h
    first
      | exact ⟨rfl, rfl, rfl, rfl, rfl⟩
      | cases h

theorem cache_call_frame (w : World σ) (k : String) (w1 : World σ)
    (h : (GetOrNewCache w k).world = some w1) :
    w1.g.breakerMap = w.g.breakerMap ∧ w1.g.breakerTmpl = w.g.breakerTmpl ∧
    w1.breakerCalls = w.breakerCalls ∧ w1.g.cacheTmpl = w.g.cacheTmpl ∧
    w1.g.eventReceivers = w.g.eventReceivers := by
  rcases GetOrNewCache_cases w k with e | ⟨c, _, e⟩ | ⟨_, _, _, e⟩ | ⟨f, env, _, _, _, _, e⟩ |
    ⟨f, c, env, _, _, _, _, e⟩ <;>
  · rw [e] at h
    simp only [Outcome.world, Option.some.injEq] at h
    try subst h
    first
      | exact ⟨rfl, rfl, rfl, rfl, rfl⟩
      | cases h

end frames

/-- C7. The breaker and cache namespaces are independent: whatever way a call
`GetOrNewBreaker(k)` ends (hit, creation, failure, or a panic on an unset factory), it leaves
`cacheMap` and the cache factory unchanged and does not invoke the cache factory, so a cache
absent for a key before the call is absent after it; a call `GetOrNewCache(k)` leaves
`breakerMap` and the breaker factory unchanged in the same way. -/
theorem namespaces_independent :
    (∀ {σ : Type} (w : World σ) (k : String) (w1 : World σ),
      (GetOrNewBreaker w k).world = some w1 →
      w1.g.cacheMap = w.g.cacheMap ∧ w1.g.cacheTmpl = w.g.cacheTmpl ∧
      w1.cacheCalls = w.cacheCalls ∧
      ∀ x, w.g.cacheMap x = none → w1.g.cacheMap x = none) ∧
    (∀ {σ : Type} (w : World σ) (k : String) (w1 : World σ),
      (GetOrNewCache w k).world = some w1 →
      w1.g.breakerMap = w.g.breakerMap ∧ w1.g.breakerTmpl = w.g.breakerTmpl ∧
      w1.breakerCalls = w.breakerCalls ∧
      ∀ x, w.g.breakerMap x = none → w1.g.breakerMap x = none) := by
  constructor
  · intro σ w k w1 h
    obtain ⟨h1, h2, h3, _⟩ := breaker_call_frame w k w1 h
    exact ⟨h1, h2, h3, fun x hx => by rw [h1]; exact hx⟩
  · intro σ w k w1 h
    obtain ⟨h1, h2, h3, _⟩ := cache_call_frame w k w1 h
    exact ⟨h1, h2, h3, fun x hx => by rw [h1]; exact hx⟩

/-- Witness of C7: on the example Group, `GetOrNewBreaker("x")` creates the breaker `1` for
`"x"` and no cache for `"x"` appears. -/
theorem namespaces_independent_witness :
    (GetOrNewBreaker countingWorld "x").world = some (afterBreakerInsert countingWorld "x" 1 1) ∧
    (afterBreakerInsert countingWorld "x" 1 1).g.breakerMap "x" = some 1 ∧
    countingWorld.g.cacheMap "x" = none ∧
    (afterBreakerInsert countingWorld "x" 1 1).g.cacheMap "x" = none :=
  ⟨rfl, by simp [afterBreakerInsert, mapSet], rfl,
    (namespaces_independent.1 countingWorld "x"
      (afterBreakerInsert countingWorld "x" 1 1) rfl).2.2.2 "x" rfl⟩

/-- C9. `WithBreaker(f)` sets the breaker factory to `f` and changes nothing else of the Group
it was called on (cache factory, both maps, receiver list, mutex); `WithCache(f)` does the
same for the cache factory.  `NewGroup().WithBreaker(f).WithCache(h)` is a Group with empty
maps, no receivers, breaker factory `f` and cache factory `h`, and it equals
`NewGroup().WithCache(h).WithBreaker(f)`. -/
theorem with_factories_frame {σ : Type} (g : Group σ) (f : Option (BreakerFunc σ))
    (h : Option (CacheFunc σ)) :
    WithBreaker g f = { g with breakerTmpl := f } ∧
    ((WithBreaker g f).breakerTmpl = f ∧ (WithBreaker g f).cacheTmpl = g.cacheTmpl ∧
      (WithBreaker g f).breakerMap = g.breakerMap ∧ (WithBreaker g f).cacheMap = g.cacheMap ∧
      (WithBreaker g f).eventReceivers = g.eventReceivers ∧ (WithBreaker g f).mu = g.mu) ∧
    WithCache g h = { g with cacheTmpl := h } ∧
    ((WithCache g h).cacheTmpl = h ∧ (WithCache g h).breakerTmpl = g.breakerTmpl ∧
      (WithCache g h).breakerMap = g.breakerMap ∧ (WithCache g h).cacheMap = g.cacheMap ∧
      (WithCache g h).eventReceivers = g.eventReceivers ∧ (WithCache g h).mu = g.mu) ∧
    WithCache (WithBreaker (NewGroup σ) f) h =
      { mu := RWMutex.zero, breakerMap := fun _ => none, breakerTmpl := f,
        cacheMap := fun _ => none, cacheTmpl := h, eventReceivers := [] } ∧
    WithBreaker (WithCache (NewGroup σ) h) f = WithCache (WithBreaker (NewGroup σ) f) h :=
  ⟨rfl, ⟨rfl, rfl, rfl, rfl, rfl, rfl⟩, rfl, ⟨rfl, rfl, rfl, rfl, rfl, rfl⟩, rfl, rfl⟩

/-- C3 on the code.  On `NewGroup().WithBreaker(flakyBreakers).WithCache(flakyCaches)`: the
first `GetOrNewBreaker("k")` fails with `ErrCreateUnavailable` and leaves the mutex held by a
writer; the factory would now return the instance `1`, but the second `GetOrNewBreaker("k")`
never gets past `g.mu.RLock()`, so the factory is not invoked again and nothing is stored.
`GetOrNewCache` on the state left behind waits as well, and `GetOrNewCache` leaks the mutex
in the same way. -/
theorem failed_call_leaves_mutex_held :
    GetOrNewBreaker flakyWorld "k" =
      .ret (none, some ErrCreateUnavailable) (afterBreakerFailure flakyWorld "k" 1) ∧
    (afterBreakerFailure flakyWorld "k" 1).g.mu = { writer := true, readers := 0 } ∧
    flakyBreakers "k" (afterBreakerFailure flakyWorld "k" 1).env = (some 1, 2) ∧
    GetOrNewBreaker (afterBreakerFailure flakyWorld "k" 1) "k" = .blocked ∧
    GetOrNewCache (afterBreakerFailure flakyWorld "k" 1) "k" = .blocked ∧
    GetOrNewCache flakyWorld "k" =
      .ret (none, some ErrCreateUnavailable) (afterCacheFailure flakyWorld "k" 1) ∧
    (afterCacheFailure flakyWorld "k" 1).g.mu = { writer := true, readers := 0 } ∧
    GetOrNewCache (afterCacheFailure flakyWorld "k" 1) "k" = .blocked :=
  ⟨rfl, rfl, rfl, rfl, rfl, rfl, rfl, rfl⟩

/-- C4 on the code.  Two callers of `GetOrNewBreaker("k")` on the example Group both miss in
the lookup step; the first then builds and stores the instance `1`.  When the second caller
runs its construct-and-insert step, the factory builds the instance `2`; the step leaves
`breakerMap["k"] = 1` and starts no goroutine, but it returns `2`, the instance it has just
built, not the stored one.  `GetOrNewCache` does the same. -/
theorem race_loser_returns_own_instance :
    (lookupBreaker countingWorld "k").val = some none ∧
    createBreaker countingWorld "k" = .ret (some 1, none) racedWorld ∧
    racedWorld.g.breakerMap "k" = some 1 ∧
    (createBreaker racedWorld "k").val = some (some 2, none) ∧
    (createBreaker racedWorld "k").world.bind (fun w => w.g.breakerMap "k") = some 1 ∧
    (createBreaker racedWorld "k").world.map (fun w => w.goroutines) =
      some racedWorld.goroutines ∧
    (lookupCache countingWorld "k").val = some none ∧
    createCache countingWorld "k" = .ret (some 1, none) racedCacheWorld ∧
    racedCacheWorld.g.cacheMap "k" = some 1 ∧
    (createCache racedCacheWorld "k").val = some (some 2, none) ∧
    (createCache racedCacheWorld "k").world.bind (fun w => w.g.cacheMap "k") = some 1 ∧
    (createCache racedCacheWorld "k").world.map (fun w => w.goroutines) =
      some racedCacheWorld.goroutines := by
  refine ⟨rfl, rfl, ?_, ?_, ?_, ?_, rfl, rfl, ?_, ?_, ?_, ?_⟩ <;>
    simp [racedWorld, racedCacheWorld, afterBreakerInsert, afterCacheInsert, mapSet,
      createBreaker, createCache, countingWorld, World.init, NewGroup, WithBreaker, WithCache,
      RWMutex.Lock, RWMutex.Unlock, RWMutex.zero, countingBreakers, countingCaches,
      Outcome.val, Outcome.world]

section queue

theorem forwardAll_eq (evs : List GroupEvent) :
    ∀ q : List GroupEvent, q.length ≤ outputCap →
      forwardAll q evs = (q ++ evs).drop ((q ++ evs).length - outputCap) := by
  induction evs with
  | nil =>
    intro q hq
    simp [forwardAll, Nat.sub_eq_zero_of_le hq]
  | cons v evs ih =>
    intro q hq
    have hstep : forwardAll q (v :: evs) = forwardAll (forward q v) evs := rfl
    rw [hstep]
    by_cases hlt : q.length < outputCap
    · have hf : forward q v = q ++ [v] := by simp [forward, hlt]
      rw [hf, ih (q ++ [v]) (by simp; omega)]
      simp
    · have hlen : q.length = outputCap := by omega
      have hf : forward q v = q.tail ++ [v] := by simp [forward, hlt]
      cases q with
      | nil => simp [outputCap] at hlen
      | cons a q1 =>
        simp only [List.length_cons] at hlen
        rw [hf, ih _ (by simp; omega)]
        simp only [List.tail_cons, List.append_assoc, List.singleton_append, List.length_append,
          List.length_cons, List.cons_append]
        have e2 : q1.length + (evs.length + 1) + 1 - outputCap =
            (q1.length + (evs.length + 1) - outputCap) + 1 := by omega
        rw [e2, List.drop_succ_cons]
        simp

theorem feed_output (evs : List GroupEvent) :
    ∀ r : Receiver, (r.feed evs).output = forwardAll r.output evs := by
  induction evs with
  | nil => intro r; rfl
  | cons v evs ih =>
    intro r
    have h : r.feed (v :: evs) = (r.send v).feed evs := rfl
    rw [h, ih]
    rfl

theorem feed_sent (evs : List GroupEvent) :
    ∀ r : Receiver, (r.feed evs).sent = r.sent ++ evs := by
  induction evs with
  | nil => intro r; simp [Receiver.feed]
  | cons v evs ih =>
    intro r
    have h : r.feed (v :: evs) = (r.send v).feed evs := rfl
    rw [h, ih]
    simp [Receiver.send]

theorem fresh_feed_output (evs : List GroupEvent) :
    (Receiver.fresh.feed evs).output = evs.drop (evs.length - outputCap) := by
  rw [feed_output, forwardAll_eq evs _ (by simp [Receiver.fresh])]
  simp [Receiver.fresh]

end queue

/-- C6. The output queue of a subscription has capacity 100.  After any sequence `evs` of `n`
events has been fed to a fresh subscription with no intervening read, the queue holds
exactly the last `min n 100` events in emission order, every event was taken from the intake,
and at no moment of the feeding did the queue hold more than 100.  For `n = 101` the first
read yields the 2nd event emitted. -/
theorem queue_keeps_most_recent (evs : List GroupEvent) :
    outputCap = 100 ∧
    (Receiver.fresh.feed evs).output = evs.drop (evs.length - min evs.length 100) ∧
    (Receiver.fresh.feed evs).output.length = min evs.length 100 ∧
    (Receiver.fresh.feed evs).sent = evs ∧
    (∀ m, (Receiver.fresh.feed (evs.take m)).output.length ≤ 100) ∧
    (evs.length = 101 → (Receiver.fresh.feed evs).recv.map Prod.fst = evs[1]?) := by
  have hcap : outputCap = 100 := rfl
  have hout := fresh_feed_output evs
  rw [hcap] at hout
  have hmin : evs.length - min evs.length 100 = evs.length - 100 := by omega
  refine ⟨rfl, by rw [hmin]; exact hout, ?_, ?_, ?_, ?_⟩
  · rw [hout, List.length_drop]
    omega
  · rw [feed_sent]
    simp [Receiver.fresh]
  · intro m
    rw [fresh_feed_output, List.length_drop, hcap]
    omega
  · intro hn
    match evs, hn, hout with
    | e0 :: e1 :: rest, hn, hout =>
      have h1 : (e0 :: e1 :: rest).length - 100 = 1 := by omega
      rw [h1] at hout
      simp only [List.drop_succ_cons, List.drop_zero] at hout
      simp [Receiver.recv, hout]

/-- Witness of C6: the creations of the breakers `0, 1, .., 100`, fed to a fresh subscription;
its first read yields the creation of the breaker `1`. -/
theorem queue_keeps_most_recent_witness :
    ((List.range 101).map breakerEvent).length = 101 ∧
    (Receiver.fresh.feed ((List.range 101).map breakerEvent)).recv.map Prod.fst =
      some (breakerEvent 1) := by
  have hlen : ((List.range 101).map breakerEvent).length = 101 := by simp
  have h := (queue_keeps_most_recent ((List.range 101).map breakerEvent)).2.2.2.2.2 hlen
  refine ⟨hlen, ?_⟩
  rw [h]
  simp

section events

variable {σ : Type}

theorem eventCount_snoc (k : String) (kind : EventType) (ts : List Goroutine) (t : Goroutine) :
    eventCount k kind (ts ++ [t]) =
      eventCount k kind ts + (if t.key = k ∧ t.event.Event = kind then 1 else 0) := by
  unfold eventCount
  rw [List.countP_append]
  by_cases h : t.key = k ∧ t.event.Event = kind
  · simp [List.countP_cons, h.1, h.2]
  · have : ¬ (t.key = k ∧ t.event.Event = kind) := h
    simp only [List.countP_cons, List.countP_nil, if_neg h]
    simp only [Bool.and_eq_true, decide_eq_true_eq, if_neg this]

theorem eventCount_markDone (k : String) (kind : EventType) (ts : List Goroutine) :
    ∀ i, eventCount k kind (markDone ts i) = eventCount k kind ts := by
  induction ts with
  | nil => intro i; rfl
  | cons t ts ih =>
    intro i
    cases i with
    | zero => simp [markDone, eventCount, List.countP_cons]
    | succ i =>
      have h := ih i
      unfold eventCount at h ⊢
      simp [markDone, List.countP_cons, h]

theorem runGoroutine_spec (w : World σ) (i : Nat) (w1 : World σ)
    (h : runGoroutine w i = some w1) :
    ∃ t, w.goroutines[i]? = some t ∧ t.done = false ∧
      w1 = { w with g := sendEvent w.g t.event.Event t.event.Member,
                    goroutines := markDone w.goroutines i } := by
  unfold runGoroutine at h
  cases ht : w.goroutines[i]? with
  | none => simp [ht] at h
  | some t =>
    simp only [ht] at h
    by_cases hd : t.done = true
    · simp [hd] at h
    · rw [if_neg hd] at h
      simp only [Option.some.injEq] at h
      exact ⟨t, rfl, by simpa using hd, h.symm⟩

theorem step_breakerBudget (k : String) (w : World σ) (c : Call σ) (w1 : World σ)
    (h : step w c = some w1) : breakerBudget k w1 ≤ breakerBudget k w := by
  cases c with
  | withBreaker f =>
    simp only [step, Option.some.injEq] at h
    subst h
    exact Nat.le_refl _
  | withCache f =>
    simp only [step, Option.some.injEq] at h
    subst h
    exact Nat.le_refl _
  | subscribe =>
    simp only [step, Option.some.injEq] at h
    subst h
    exact Nat.le_refl _
  | schedule i =>
    obtain ⟨t, _, _, e⟩ := runGoroutine_spec w i w1 h
    subst e
    simp [breakerBudget, eventCount_markDone, sendEvent]
  | getOrNewCache x =>
    simp only [step] at h
    rcases GetOrNewCache_cases w x with e | ⟨c, _, e⟩ | ⟨_, _, _, e⟩ | ⟨f, env, _, _, _, _, e⟩ |
      ⟨f, c, env, _, _, _, _, e⟩
    · rw [e] at h; cases h
    · rw [e] at h; cases h; exact Nat.le_refl _
    · rw [e] at h; cases h; exact Nat.le_refl _
    · rw [e] at h; cases h; exact Nat.le_refl _
    · rw [e] at h; cases h
      simp [breakerBudget, afterCacheInsert, eventCount_snoc, BreakerAdded, CacheAdded]
  | getOrNewBreaker x =>
    simp only [step] at h
    rcases GetOrNewBreaker_cases w x with e | ⟨b, _, e⟩ | ⟨_, _, _, e⟩ |
      ⟨f, env, _, _, _, _, e⟩ | ⟨f, b, env, hx, _, _, _, e⟩
    · rw [e] at h; cases h
    · rw [e] at h; cases h; exact Nat.le_refl _
    · rw [e] at h; cases h; exact Nat.le_refl _
    · rw [e] at h; cases h; exact Nat.le_refl _
    · rw [e] at h; cases h
      by_cases hxk : x = k
      · subst hxk
        simp [breakerBudget, afterBreakerInsert, eventCount_snoc, mapSet, hx]
      · have hkx : ¬ k = x := fun e => hxk e.symm
        simp [breakerBudget, afterBreakerInsert, eventCount_snoc, mapSet, hxk, hkx]

theorem step_cacheBudget (k : String) (w : World σ) (c : Call σ) (w1 : World σ)
    (h : step w c = some w1) : cacheBudget k w1 ≤ cacheBudget k w := by
  cases c with
  | withBreaker f =>
    simp only [step, Option.some.injEq] at h
    subst h
    exact Nat.le_refl _
  | withCache f =>
    simp only [step, Option.some.injEq] at h
    subst h
    exact Nat.le_refl _
  | subscribe =>
    simp only [step, Option.some.injEq] at h
    subst h
    exact Nat.le_refl _
  | schedule i =>
    obtain ⟨t, _, _, e⟩ := runGoroutine_spec w i w1 h
    subst e
    simp [cacheBudget, eventCount_markDone, sendEvent]
  | getOrNewBreaker x =>
    simp only [step] at h
    rcases GetOrNewBreaker_cases w x with e | ⟨b, _, e⟩ | ⟨_, _, _, e⟩ |
      ⟨f, env, _, _, _, _, e⟩ | ⟨f, b, env, _, _, _, _, e⟩
    · rw [e] at h; cases h
    · rw [e] at h; cases h; exact Nat.le_refl _
    · rw [e] at h; cases h; exact Nat.le_refl _
    · rw [e] at h; cases h; exact Nat.le_refl _
    · rw [e] at h; cases h
      simp [cacheBudget, afterBreakerInsert, eventCount_snoc, BreakerAdded, CacheAdded]
  | getOrNewCache x =>
    simp only [step] at h
    rcases GetOrNewCache_cases w x with e | ⟨c, _, e⟩ | ⟨_, _, _, e⟩ |
      ⟨f, env, _, _, _, _, e⟩ | ⟨f, c, env, hx, _, _, _, e⟩
    · rw [e] at h; cases h
    · rw [e] at h; cases h; exact Nat.le_refl _
    · rw [e] at h; cases h; exact Nat.le_refl _
    · rw [e] at h; cases h; exact Nat.le_refl _
    · rw [e] at h; cases h
      by_cases hxk : x = k
      · subst hxk
        simp [cacheBudget, afterCacheInsert, eventCount_snoc, mapSet, hx]
      · have hkx : ¬ k = x := fun e => hxk e.symm
        simp [cacheBudget, afterCacheInsert, eventCount_snoc, mapSet, hxk, hkx]

theorem run_breakerBudget (k : String) (cs : List (Call σ)) :
    ∀ w : World σ, breakerBudget k (run w cs) ≤ breakerBudget k w := by
  induction cs with
  | nil => intro w; exact Nat.le_refl _
  | cons c cs ih =>
    intro w
    cases hs : step w c with
    | none => simp [run, hs]
    | some w1 =>
      simp only [run, hs]
      exact Nat.le_trans (ih w1) (step_breakerBudget k w c w1 hs)

theorem run_cacheBudget (k : String) (cs : List (Call σ)) :
    ∀ w : World σ, cacheBudget k (run w cs) ≤ cacheBudget k w := by
  induction cs with
  | nil => intro w; exact Nat.le_refl _
  | cons c cs ih =>
    intro w
    cases hs : step w c with
    | none => simp [run, hs]
    | some w1 =>
      simp only [run, hs]
      exact Nat.le_trans (ih w1) (step_cacheBudget k w c w1 hs)

theorem breaker_no_event (w : World σ) (k : String) (w1 : World σ)
    (h : (GetOrNewBreaker w k).world = some w1)
    (hno : (w.g.breakerMap k).isSome ∨ ∃ f, w.g.breakerTmpl = some f ∧ (f k w.env).1 = none) :
    w1.goroutines = w.goroutines := by
  rcases GetOrNewBreaker_cases w k with e | ⟨b, _, e⟩ | ⟨_, _, _, e⟩ | ⟨f, env, _, _, _, _, e⟩ |
    ⟨f, b, env, hk, _, hf, hb, e⟩
  · rw [e] at h; cases h
  · rw [e] at h; cases h; rfl
  · rw [e] at h; cases h; rfl
  · rw [e] at h; cases h; rfl
  · rcases hno with hp | ⟨f1, hf1, hn⟩
    · simp [hk] at hp
    · rw [hf] at hf1
      cases hf1
      simp [hb] at hn

theorem cache_no_event (w : World σ) (k : String) (w1 : World σ)
    (h : (GetOrNewCache w k).world = some w1)
    (hno : (w.g.cacheMap k).isSome ∨ ∃ f, w.g.cacheTmpl = some f ∧ (f k w.env).1 = none) :
    w1.goroutines = w.goroutines := by
  rcases GetOrNewCache_cases w k with e | ⟨c, _, e⟩ | ⟨_, _, _, e⟩ | ⟨f, env, _, _, _, _, e⟩ |
    ⟨f, c, env, hk, _, hf, hc, e⟩
  · rw [e] at h; cases h
  · rw [e] at h; cases h; rfl
  · rw [e] at h; cases h; rfl
  · rw [e] at h; cases h; rfl
  · rcases hno with hp | ⟨f1, hf1, hn⟩
    · simp [hk] at hp
    · rw [hf] at hf1
      cases hf1
      simp [hc] at hn

end events

/-- C10. Creation events are started exactly on first insertion and carry the right kind and
member.  From a Group whose mutex is free, `GetOrNewBreaker(k)` with `k` absent and the
factory returning `b` starts exactly one goroutine, for `GroupEvent{BreakerAdded, b}`, and
stores `b` under `k`; whatever way a call ends, it starts none when `k` was present or the
factory returned nil.  `GetOrNewCache` likewise starts exactly one
`GroupEvent{CacheAdded, c}`.  `BreakerAdded` and `CacheAdded` are distinct, and over any
sequence of calls (configuration, get-or-create, Subscribe, goroutines being run) at most one
event per key and kind is added to those already started; from `NewGroup()` that is at most
one per key and kind. -/
theorem creation_event_once :
    (∀ {σ : Type} (w : World σ) (k : String) (f : BreakerFunc σ) (b : Breaker) (env : σ),
      w.g.mu = RWMutex.zero → w.g.breakerMap k = none → w.g.breakerTmpl = some f →
      f k w.env = (some b, env) →
      ∃ w1, GetOrNewBreaker w k = .ret (some b, none) w1 ∧ w1.g.breakerMap k = some b ∧
        w1.goroutines = w.goroutines ++
          [{ key := k, event := { Event := BreakerAdded, Member := Value.breaker b },
             done := false }]) ∧
    (∀ {σ : Type} (w : World σ) (k : String) (w1 : World σ),
      (GetOrNewBreaker w k).world = some w1 →
      ((w.g.breakerMap k).isSome ∨ ∃ f, w.g.breakerTmpl = some f ∧ (f k w.env).1 = none) →
      w1.goroutines = w.goroutines) ∧
    (∀ {σ : Type} (w : World σ) (k : String) (f : CacheFunc σ) (c : Cache) (env : σ),
      w.g.mu = RWMutex.zero → w.g.cacheMap k = none → w.g.cacheTmpl = some f →
      f k w.env = (some c, env) →
      ∃ w1, GetOrNewCache w k = .ret (some c, none) w1 ∧ w1.g.cacheMap k = some c ∧
        w1.goroutines = w.goroutines ++
          [{ key := k, event := { Event := CacheAdded, Member := Value.cache c },
             done := false }]) ∧
    (∀ {σ : Type} (w : World σ) (k : String) (w1 : World σ),
      (GetOrNewCache w k).world = some w1 →
      ((w.g.cacheMap k).isSome ∨ ∃ f, w.g.cacheTmpl = some f ∧ (f k w.env).1 = none) →
      w1.goroutines = w.goroutines) ∧
    BreakerAdded ≠ CacheAdded ∧
    (∀ {σ : Type} (w : World σ) (cs : List (Call σ)) (k : String),
      eventCount k BreakerAdded (run w cs).goroutines ≤
        eventCount k BreakerAdded w.goroutines + 1 ∧
      eventCount k CacheAdded (run w cs).goroutines ≤
        eventCount k CacheAdded w.goroutines + 1) ∧
    (∀ {σ : Type} (env : σ) (cs : List (Call σ)) (k : String),
      eventCount k BreakerAdded (run (World.init env) cs).goroutines ≤ 1 ∧
      eventCount k CacheAdded (run (World.init env) cs).goroutines ≤ 1) := by
  have hseq : ∀ {σ : Type} (w : World σ) (cs : List (Call σ)) (k : String),
      eventCount k BreakerAdded (run w cs).goroutines ≤
        eventCount k BreakerAdded w.goroutines + 1 ∧
      eventCount k CacheAdded (run w cs).goroutines ≤
        eventCount k CacheAdded w.goroutines + 1 := by
    intro σ w cs k
    have hb := run_breakerBudget k cs w
    have hc := run_cacheBudget k cs w
    unfold breakerBudget at hb
    unfold cacheBudget at hc
    constructor
    · have : (if (w.g.breakerMap k).isSome = true then 0 else 1) ≤ 1 := by split <;> omega
      omega
    · have : (if (w.g.cacheMap k).isSome = true then 0 else 1) ≤ 1 := by split <;> omega
      omega
  refine ⟨?_, fun w k w1 h hno => breaker_no_event w k w1 h hno, ?_,
    fun w k w1 h hno => cache_no_event w k w1 h hno, by decide, hseq, ?_⟩
  · intro σ w k f b env hmu hk hf hb
    exact ⟨_, GetOrNewBreaker_insert w k f b env hmu hk hf hb,
      by simp [afterBreakerInsert, mapSet], rfl⟩
  · intro σ w k f c env hmu hk hf hc
    exact ⟨_, GetOrNewCache_insert w k f c env hmu hk hf hc,
      by simp [afterCacheInsert, mapSet], rfl⟩
  · intro σ env cs k
    have h := hseq (World.init env) cs k
    simpa [World.init, eventCount] using h

/-- Witness of C10 on the example Group: `GetOrNewBreaker("x")` starts the one goroutine for
`GroupEvent{BreakerAdded, 1}`. -/
theorem creation_event_once_witness :
    countingWorld.g.mu = RWMutex.zero ∧ countingWorld.g.breakerMap "x" = none ∧
    countingWorld.g.breakerTmpl = some countingBreakers ∧
    countingBreakers "x" countingWorld.env = (some 1, 1) ∧
    ∃ w1, GetOrNewBreaker countingWorld "x" = .ret (some 1, none) w1 ∧
      w1.g.breakerMap "x" = some 1 ∧
      w1.goroutines = countingWorld.goroutines ++
        [{ key := "x", event := { Event := BreakerAdded, Member := Value.breaker 1 },
           done := false }] :=
  ⟨rfl, rfl, rfl, rfl,
    creation_event_once.1 countingWorld "x" countingBreakers 1 1 rfl rfl rfl rfl⟩

section delivery

variable {σ : Type}

theorem hasRun_snoc (ts : List Goroutine) (t : Goroutine) (i : Nat)
    (h : hasRun ts i = true) : hasRun (ts ++ [t]) i = true := by
  unfold hasRun at h ⊢
  cases hi : ts[i]? with
  | none => simp [hi] at h
  | some u =>
    have hlt : i < ts.length := by
      by_contra hge
      rw [List.getElem?_eq_none (by omega)] at hi
      cases hi
    rw [List.getElem?_append_left hlt, hi]
    simpa [hi] using h

theorem hasRun_markDone (ts : List Goroutine) :
    ∀ i j, hasRun ts i = true → hasRun (markDone ts j) i = true := by
  induction ts with
  | nil => intro i j h; simp [hasRun] at h
  | cons t ts ih =>
    intro i j h
    cases j with
    | zero =>
      cases i with
      | zero => simp [markDone, hasRun]
      | succ i => simpa [markDone, hasRun] using h
    | succ j =>
      cases i with
      | zero => simpa [markDone, hasRun] using h
      | succ i =>
        have h1 : hasRun ts i = true := by simpa [hasRun] using h
        have h2 := ih i j h1
        simpa [markDone, hasRun] using h2

theorem hasRun_markDone_self (ts : List Goroutine) :
    ∀ i t, ts[i]? = some t → hasRun (markDone ts i) i = true := by
  induction ts with
  | nil => intro i t h; simp at h
  | cons u ts ih =>
    intro i t h
    cases i with
    | zero => simp [markDone, hasRun]
    | succ i =>
      have h1 : ts[i]? = some t := by simpa using h
      have h2 := ih i t h1
      simpa [markDone, hasRun] using h2

theorem runGoroutine_hasRun (w : World σ) (i : Nat) (h : hasRun w.goroutines i = true) :
    runGoroutine w i = none := by
  unfold hasRun at h
  unfold runGoroutine
  cases hi : w.goroutines[i]? with
  | none => rfl
  | some t =>
    simp only [hi] at h
    simp [h]

theorem step_hasRun (w : World σ) (c : Call σ) (w1 : World σ) (i : Nat)
    (h : step w c = some w1) (hi : hasRun w.goroutines i = true) :
    hasRun w1.goroutines i = true := by
  cases c with
  | withBreaker f =>
    simp only [step, Option.some.injEq] at h
    subst h
    exact hi
  | withCache f =>
    simp only [step, Option.some.injEq] at h
    subst h
    exact hi
  | subscribe =>
    simp only [step, Option.some.injEq] at h
    subst h
    exact hi
  | schedule j =>
    obtain ⟨t, _, _, e⟩ := runGoroutine_spec w j w1 h
    subst e
    exact hasRun_markDone _ i j hi
  | getOrNewBreaker x =>
    simp only [step] at h
    rcases GetOrNewBreaker_cases w x with e | ⟨b, _, e⟩ | ⟨_, _, _, e⟩ |
      ⟨f, env, _, _, _, _, e⟩ | ⟨f, b, env, _, _, _, _, e⟩
    · rw [e] at h; cases h
    · rw [e] at h; cases h; exact hi
    · rw [e] at h; cases h; exact hi
    · rw [e] at h; cases h; exact hi
    · rw [e] at h; cases h
      exact hasRun_snoc _ _ i hi
  | getOrNewCache x =>
    simp only [step] at h
    rcases GetOrNewCache_cases w x with e | ⟨c, _, e⟩ | ⟨_, _, _, e⟩ |
      ⟨f, env, _, _, _, _, e⟩ | ⟨f, c, env, _, _, _, _, e⟩
    · rw [e] at h; cases h
    · rw [e] at h; cases h; exact hi
    · rw [e] at h; cases h; exact hi
    · rw [e] at h; cases h; exact hi
    · rw [e] at h; cases h
      exact hasRun_snoc _ _ i hi

theorem run_hasRun (cs : List (Call σ)) (i : Nat) :
    ∀ w : World σ, hasRun w.goroutines i = true → hasRun (run w cs).goroutines i = true := by
  induction cs with
  | nil => intro w h; exact h
  | cons c cs ih =>
    intro w h
    cases hs : step w c with
    | none => simpa [run, hs] using h
    | some w1 =>
      simp only [run, hs]
      exact ih w1 (step_hasRun w c w1 i hs h)

theorem step_receivers_length (w : World σ) (c : Call σ) (w1 : World σ)
    (h : step w c = some w1) : w.g.eventReceivers.length ≤ w1.g.eventReceivers.length := by
  cases c with
  | withBreaker f =>
    simp only [step, Option.some.injEq] at h
    subst h
    exact Nat.le_refl _
  | withCache f =>
    simp only [step, Option.some.injEq] at h
    subst h
    exact Nat.le_refl _
  | subscribe =>
    simp only [step, Option.some.injEq] at h
    subst h
    simp [Subscribe]
  | schedule j =>
    obtain ⟨t, _, _, e⟩ := runGoroutine_spec w j w1 h
    subst e
    simp [sendEvent]
  | getOrNewBreaker x =>
    simp only [step] at h
    rw [(breaker_call_frame w x w1 h).2.2.2.2]
  | getOrNewCache x =>
    simp only [step] at h
    rw [(cache_call_frame w x w1 h).2.2.2.2]

theorem run_receivers_length (cs : List (Call σ)) :
    ∀ w : World σ, w.g.eventReceivers.length ≤ (run w cs).g.eventReceivers.length := by
  induction cs with
  | nil => intro w; exact Nat.le_refl _
  | cons c cs ih =>
    intro w
    cases hs : step w c with
    | none => simp [run, hs]
    | some w1 =>
      simp only [run, hs]
      exact Nat.le_trans (step_receivers_length w c w1 hs) (ih w1)

end delivery

/-- C8 fails on the code.  On the example Group, which has no subscriber,
`GetOrNewBreaker("k")` creates the entry and returns the breaker `1`; `Subscribe()` is called
after that; the goroutine started by the call runs after the `Subscribe()`.  The new
subscriber, registered after the call had returned, receives the `BreakerAdded` event. -/
theorem late_subscriber_receives_event :
    countingWorld.g.eventReceivers = [] ∧
    (GetOrNewBreaker countingWorld "k").val = some (some 1, none) ∧
    (run countingWorld [Call.getOrNewBreaker "k", Call.subscribe, Call.schedule 0]
      ).g.eventReceivers =
      [{ sent := [{ Event := BreakerAdded, Member := Value.breaker 1 }],
         output := [{ Event := BreakerAdded, Member := Value.breaker 1 }] }] := by
  refine ⟨rfl, rfl, ?_⟩
  decide

/-- C8 as the code has it.  A call `GetOrNewBreaker(k)` that creates the entry delivers
nothing itself: it leaves the receivers as they are and starts one goroutine carrying the
event.  When the scheduler runs a goroutine, its event is sent exactly once to every
subscription in the receiver list at that moment (each intake log grows by exactly that
event) and to no other, both maps are unchanged, and the goroutine never runs again, whatever
calls follow.  No call shortens the receiver list, so every subscriber registered before the
call is among those served.  `Subscribe` appends one fresh subscription, which has received
nothing, and leaves the receivers registered before and both maps unchanged. -/
theorem event_reaches_receivers_at_run_time :
    (∀ {σ : Type} (w : World σ) (k : String) (f : BreakerFunc σ) (b : Breaker) (env : σ),
      w.g.mu = RWMutex.zero → w.g.breakerMap k = none → w.g.breakerTmpl = some f →
      f k w.env = (some b, env) →
      ∃ w1, GetOrNewBreaker w k = .ret (some b, none) w1 ∧
        w1.g.eventReceivers = w.g.eventReceivers ∧
        w1.goroutines[w.goroutines.length]? =
          some { key := k, event := { Event := BreakerAdded, Member := Value.breaker b },
                 done := false }) ∧
    (∀ {σ : Type} (w : World σ) (i : Nat) (w1 : World σ), runGoroutine w i = some w1 →
      ∃ t, w.goroutines[i]? = some t ∧ t.done = false ∧
        w1.g.eventReceivers = w.g.eventReceivers.map
          (fun r => { sent := r.sent ++ [t.event], output := forward r.output t.event }) ∧
        w1.g.breakerMap = w.g.breakerMap ∧ w1.g.cacheMap = w.g.cacheMap ∧
        ∀ cs, runGoroutine (run w1 cs) i = none) ∧
    (∀ {σ : Type} (w : World σ) (cs : List (Call σ)),
      w.g.eventReceivers.length ≤ (run w cs).g.eventReceivers.length) ∧
    (∀ {σ : Type} (g : Group σ),
      (Subscribe g).1 = g.eventReceivers.length ∧
      (Subscribe g).2.eventReceivers = g.eventReceivers ++ [Receiver.fresh] ∧
      Receiver.fresh.sent = [] ∧
      (Subscribe g).2.breakerMap = g.breakerMap ∧ (Subscribe g).2.cacheMap = g.cacheMap) := by
  refine ⟨?_, ?_, fun w cs => run_receivers_length cs w,
    fun g => ⟨rfl, rfl, rfl, rfl, rfl⟩⟩
  · intro σ w k f b env hmu hk hf hb
    exact ⟨_, GetOrNewBreaker_insert w k f b env hmu hk hf hb, rfl,
      by simp [afterBreakerInsert]⟩
  · intro σ w i w1 h
    obtain ⟨t, ht, hd, e⟩ := runGoroutine_spec w i w1 h
    subst e
    refine ⟨t, ht, hd, rfl, rfl, rfl, ?_⟩
    intro cs
    apply runGoroutine_hasRun
    apply run_hasRun
    exact hasRun_markDone_self w.goroutines i t ht

/-- Witness of the amended C8: the goroutine of `subscribedWorld` runs, and the subscription
made before the call has then received the event once. -/
theorem event_reaches_receivers_at_run_time_witness :
    runGoroutine subscribedWorld 0 = some deliveredWorld ∧
    deliveredWorld.g.eventReceivers =
      [{ sent := [{ Event := BreakerAdded, Member := Value.breaker 1 }],
         output := [{ Event := BreakerAdded, Member := Value.breaker 1 }] }] ∧
    ∃ t, subscribedWorld.goroutines[0]? = some t ∧ t.done = false ∧
      deliveredWorld.g.eventReceivers = subscribedWorld.g.eventReceivers.map
        (fun r => { sent := r.sent ++ [t.event], output := forward r.output t.event }) ∧
      deliveredWorld.g.breakerMap = subscribedWorld.g.breakerMap ∧
      deliveredWorld.g.cacheMap = subscribedWorld.g.cacheMap ∧
      ∀ cs, runGoroutine (run deliveredWorld cs) 0 = none :=
  ⟨rfl, by decide,
    event_reaches_receivers_at_run_time.2.1 subscribedWorld 0 deliveredWorld rfl⟩

end common

namespace breaker

/-- C5 on the code.  The adapter records outcomes in the opposite direction: for every
CircuitBreaker `c`, `c.MarkSuccess()` records a failure on the wrapped breaker and no
success, and `c.MarkFailed()` records a success and no failure. -/
theorem marks_are_swapped (c : CircuitBreaker) :
    c.MarkSuccess.Breaker = c.Breaker.Fail ∧
    c.MarkSuccess.Breaker.marks = c.Breaker.marks ++ [circuit.Mark.failure] ∧
    c.MarkSuccess.Breaker ≠ c.Breaker.Success ∧
    c.MarkFailed.Breaker = c.Breaker.Success ∧
    c.MarkFailed.Breaker.marks = c.Breaker.marks ++ [circuit.Mark.success] ∧
    c.MarkFailed.Breaker ≠ c.Breaker.Fail := by
  refine ⟨rfl, rfl, ?_, rfl, rfl, ?_⟩ <;>
    simp [CircuitBreaker.MarkSuccess, CircuitBreaker.MarkFailed, circuit.Breaker.Fail,
      circuit.Breaker.Success, circuit.Breaker.mk.injEq]

end breaker
